import Mathlib

/-!
Shallow embedding of `src/app/src/ui/changes/changes-list.tsx` (the
`ChangesList` component of a version-control desktop client): the data
model (`WorkingDirectoryFileChange`, `WorkingDirectoryStatus`), the
selection-to-row-index mapping from `render`, the context-menu builder
`onItemContextMenu`, the discard dispatcher `onDiscardChanges`, and the
tri-state checkbox value `includeAllValue`.
-/

/-- `AppFileStatus` from `models/status` as consumed by this component. -/
inductive AppFileStatus where
  | New
  | Modified
  | Deleted
  | Renamed
  | Copied
  | Conflicted
deriving DecidableEq, Repr

/-- Result of `file.selection.getSelectionType()` (`DiffSelectionType`). -/
inductive DiffSelectionType where
  | All
  | PartialSelection
  | NoneSelection
deriving DecidableEq, Repr

/-- `CheckboxValue` from `ui/lib/checkbox`. -/
inductive CheckboxValue where
  | On
  | Off
  | Mixed
deriving DecidableEq, Repr

/-- The three mutually exclusive host-platform flags (`__DARWIN__`,
`__WIN32__`, and the fallback Linux case) as a single enumeration. -/
inductive Platform where
  | darwin
  | win32
  | linux
deriving DecidableEq, Repr

/-- A `WorkingDirectoryFileChange`: stable id, repository-relative path,
optional previous path, status, and the collapsed per-file selection
type (the component only reads `selection.getSelectionType()`). -/
structure WorkingDirectoryFileChange where
  id : String
  path : String
  oldPath : Option String
  status : AppFileStatus
  selectionType : DiffSelectionType
deriving DecidableEq, Repr

/-- A `WorkingDirectoryStatus`: the ordered file list plus the derived
aggregate `includeAll` flag (`true` / `false` / `null`). -/
structure WorkingDirectoryStatus where
  files : List WorkingDirectoryFileChange
  includeAll : Option Bool
deriving DecidableEq, Repr

/-- `const GitIgnoreFileName = '.gitignore'` (line 26). -/
def GitIgnoreFileName : String := ".gitignore"

/-- `const RestrictedFileExtensions = ['.cmd', '.exe', '.bat', '.sh']`
(line 28). -/
def RestrictedFileExtensions : List String := [".cmd", ".exe", ".bat", ".sh"]

/-- Characters of the last path component: Node's `Path.basename`
restricted to `/`-separated repository-relative paths (trailing
separators stripped, then the suffix after the last separator). -/
def basenameChars (cs : List Char) : List Char :=
  ((cs.reverse.dropWhile (fun c => c = '/')).takeWhile (fun c => c ≠ '/')).reverse

/-- Node's `Path.basename` on repository-relative paths. -/
def basename (path : String) : String :=
  ⟨basenameChars path.data⟩

/-- Characters of the extension of a base name: the suffix starting at
the last `.`, empty when there is no `.` or when the only `.` leads the
name (dotfiles such as `.gitignore` have no extension), as in Node's
`Path.extname`. -/
def extnameChars (b : List Char) : List Char :=
  let revAfter := b.reverse.takeWhile (fun c => c ≠ '.')
  if revAfter.length = b.length then []
  else if b.length - revAfter.length - 1 = 0 then []
  else b.drop (b.length - revAfter.length - 1)

/-- Node's `Path.extname` on repository-relative paths. -/
def extname (path : String) : String :=
  ⟨extnameChars (basenameChars path.data)⟩

/-- JavaScript's `String.prototype.toLowerCase` on the ASCII strings
this module compares (`Char.toLower` is exactly the ASCII case map). -/
def toLowerCase (s : String) : String :=
  ⟨s.data.map Char.toLower⟩

/-- JavaScript's `Array.prototype.findIndex`: index of the first match,
`-1` when there is none. -/
def findIndexJS (p : α → Bool) : List α → Int
  | [] => -1
  | a :: as =>
    if p a then 0
    else
      let r := findIndexJS p as
      if r = -1 then -1 else r + 1

/-- Lines 274-277 of `render`: for each selected file id, push
`fileList.findIndex(file => file.id === fileID)` onto `selectedRows`
unconditionally. -/
def selectedRows (files : List WorkingDirectoryFileChange)
    (selectedFilesID : List String) : List Int :=
  selectedFilesID.map (fun fileID => findIndexJS (fun f => f.id == fileID) files)

/-- Lines 187-192 of `onItemContextMenu`: resolve every selected id to
its file record via `fileList.find(...)`, pushing only the hits. -/
def selectedFilesOf (fileList : List WorkingDirectoryFileChange)
    (selectedFilesID : List String) : List WorkingDirectoryFileChange :=
  selectedFilesID.filterMap (fun fileID => fileList.find? (fun f => f.id == fileID))

/-- Lines 197-200: the stable `seen`-filter over the extension list,
keeping the first occurrence of each value. -/
def dedupFirstAux : List String → List String → List String
  | _, [] => []
  | seen, x :: xs =>
    if seen.contains x then dedupFirstAux seen xs
    else x :: dedupFirstAux (x :: seen) xs

/-- `extensions.filter(item => seen.hasOwnProperty(item) ? false : (seen[item] = true))`. -/
def dedupFirst (l : List String) : List String :=
  dedupFirstAux [] l

/-- The effect closed over by a menu item at construction time, as a
first-order value: which collaborator the item's `action` invokes and
with which argument. -/
inductive MenuAction where
  | discard (paths : List String)
  | ignoreSingle (target : String)
  | ignoreAll (paths : List String)
  | ignorePattern (pat : String)
  | reveal (target : String)
  | openItem (target : String)
deriving DecidableEq, Repr

/-- An `IMenuItem`: label, bound action, and enablement (a missing
`enabled` key in the source defaults to enabled). -/
structure MenuItem where
  label : String
  action : MenuAction
  enabled : Bool
deriving DecidableEq, Repr

/-- A context-menu entry: an item or a `{ type: 'separator' }` row. -/
inductive MenuEntry where
  | separator
  | item (it : MenuItem)
deriving DecidableEq, Repr

/-- Label of the per-item discard action (line 204). -/
def discardLabel (platform : Platform) : String :=
  if platform = Platform.darwin then "Discard Changes…" else "Discard changes…"

/-- Label of a per-extension ignore action (lines 234-236). -/
def ignoreExtLabel (platform : Platform) (ext : String) : String :=
  if platform = Platform.darwin then "Ignore All " ++ ext ++ " Files"
  else "Ignore all " ++ ext ++ " files"

/-- `revealInFileManagerLabel` (lines 249-251). -/
def revealInFileManagerLabel (platform : Platform) : String :=
  if platform = Platform.darwin then "Reveal in Finder"
  else if platform = Platform.win32 then "Show in Explorer"
  else "Show in your File Manager"

/-- Label of the open-with-default-program action (lines 261-263). -/
def openLabel (platform : Platform) : String :=
  if platform = Platform.darwin then "Open with Default Program"
  else "Open with default program"

/-- Lines 242-247: `isSafeExtension` is computed on `__WIN32__` only,
over the deduplicated extension list of the selected files, comparing
each lowercased extension against `RestrictedFileExtensions`; on the
other platforms it is `true` unconditionally. -/
def isSafeExtension (platform : Platform) (extensions : List String) : Bool :=
  if platform = Platform.win32 then
    extensions.all (fun extension =>
      !(RestrictedFileExtensions.contains (toLowerCase extension)))
  else true

/-- Lines 210-229: the singular `Ignore` item when exactly one file name
was collected, the `Ignore all` item when more than one, nothing when
the list is empty; both enablement checks read `fileName[0]`. -/
def ignoreMenuEntries (fileName : List String) (target : String)
    (paths : List String) : List MenuEntry :=
  if fileName.length = 1 then
    [MenuEntry.item ⟨"Ignore", MenuAction.ignoreSingle target,
      fileName.headD "" != GitIgnoreFileName⟩]
  else if fileName.length > 1 then
    [MenuEntry.item ⟨"Ignore all", MenuAction.ignoreAll paths,
      fileName.headD "" != GitIgnoreFileName⟩]
  else []

/-- Lines 231-240: one `Ignore all *ext files` item per truthy (non-empty)
extension, submitting the wildcard pattern `*` ++ ext. -/
def extensionMenuEntries (platform : Platform) (extensions : List String) :
    List MenuEntry :=
  extensions.filterMap (fun extension =>
    if extension != "" then
      some (MenuEntry.item ⟨ignoreExtLabel platform extension,
        MenuAction.ignorePattern ("*" ++ extension), true⟩)
    else none)

/-- Lines 178-270, `onItemContextMenu`: resolve the multi-selection,
derive `paths` / `fileName` / deduplicated `extensions`, and assemble the
ordered entry list handed to `showContextualMenu`. -/
def onItemContextMenu (platform : Platform)
    (workingDirectory : WorkingDirectoryStatus)
    (selectedFilesID : List String) (target : String)
    (status : AppFileStatus) : List MenuEntry :=
  let fileList := workingDirectory.files
  let selectedFiles := selectedFilesOf fileList selectedFilesID
  let paths := selectedFiles.map (fun f => f.path)
  let fileName := selectedFiles.map (fun f => basename f.path)
  let extensions := dedupFirst (selectedFiles.map (fun f => extname f.path))
  [MenuEntry.item ⟨discardLabel platform, MenuAction.discard paths, true⟩,
   MenuEntry.separator]
  ++ ignoreMenuEntries fileName target paths
  ++ extensionMenuEntries platform extensions
  ++ [MenuEntry.separator,
      MenuEntry.item ⟨revealInFileManagerLabel platform,
        MenuAction.reveal target, status != AppFileStatus.Deleted⟩,
      MenuEntry.item ⟨openLabel platform, MenuAction.openItem target,
        isSafeExtension platform extensions && status != AppFileStatus.Deleted⟩]

/-- The `string | string[]` argument of `onDiscardChanges`, made a tagged
variant in place of the `instanceof Array` test. -/
inductive PathArg where
  | single (path : String)
  | array (paths : List String)
deriving DecidableEq, Repr

/-- Which collaborator call `onDiscardChanges` ends up making. -/
inductive DiscardCall where
  | noop
  | discardChanges (file : WorkingDirectoryFileChange)
  | discardAllChanges (files : List WorkingDirectoryFileChange)
deriving DecidableEq, Repr

/-- Lines 140-162, `onDiscardChanges`: re-resolve each path against the
live file list; an array forwards the hits to `onDiscardAllChanges` only
when at least one path resolved, a single path that does not resolve is
a silent no-op. -/
def onDiscardChanges (workingDirectory : WorkingDirectoryStatus) :
    PathArg → DiscardCall
  | PathArg.array paths =>
    let files := paths.filterMap
      (fun path => workingDirectory.files.find? (fun f => f.path == path))
    if files.length ≠ 0 then DiscardCall.discardAllChanges files
    else DiscardCall.noop
  | PathArg.single path =>
    match workingDirectory.files.find? (fun f => f.path == path) with
    | none => DiscardCall.noop
    | some file => DiscardCall.discardChanges file

/-- Lines 125-134, `includeAllValue`: map the aggregate flag to the
tri-state checkbox value. -/
def includeAllValue (includeAll : Option Bool) : CheckboxValue :=
  if includeAll = some true then CheckboxValue.On
  else if includeAll = some false then CheckboxValue.Off
  else CheckboxValue.Mixed

/-- Modelled from the spec: the derived aggregate flag of a FileSet
(`WorkingDirectoryStatus.includeAll`), whose computation lives in the
status model outside this component's file. Per spec sections 3 and 4.1:
`true` if every file is fully included, `false` if every file is fully
excluded, `null` for any mix, and an empty FileSet is treated as
None-equivalent for checkbox rendering. -/
def aggregateIncludeAll (files : List WorkingDirectoryFileChange) :
    Option Bool :=
  if files.isEmpty then some false
  else if files.all (fun f => f.selectionType == DiffSelectionType.All) then
    some true
  else if files.all (fun f => f.selectionType == DiffSelectionType.NoneSelection) then
    some false
  else none

/-- First `discard` action's bound path list among the menu entries. -/
def discardPathsOf (entries : List MenuEntry) : Option (List String) :=
  (entries.filterMap (fun e =>
    match e with
    | MenuEntry.item ⟨_, MenuAction.discard paths, _⟩ => some paths
    | _ => none)).head?

/-- The menu items whose action is `ignoreSingle` or `ignoreAll`. -/
def ignoreItems (entries : List MenuEntry) : List MenuItem :=
  entries.filterMap (fun e =>
    match e with
    | MenuEntry.item it =>
      match it.action with
      | MenuAction.ignoreSingle _ => some it
      | MenuAction.ignoreAll _ => some it
      | _ => none
    | MenuEntry.separator => none)

/-- Action of the first ignore (single or batch) menu item. -/
def ignoreActionOf (entries : List MenuEntry) : Option MenuAction :=
  (ignoreItems entries).head?.map (fun it => it.action)

/-- Enablement of the first ignore (single or batch) menu item. -/
def ignoreEnabledOf (entries : List MenuEntry) : Option Bool :=
  (ignoreItems entries).head?.map (fun it => it.enabled)

/-- The wildcard patterns bound by the per-extension ignore items, in
menu order. -/
def ignorePatternsOf (entries : List MenuEntry) : List String :=
  entries.filterMap (fun e =>
    match e with
    | MenuEntry.item ⟨_, MenuAction.ignorePattern pat, _⟩ => some pat
    | _ => none)

/-- Enablement flags of the reveal-in-file-manager menu items, in menu
order. -/
def revealFlags (entries : List MenuEntry) : List Bool :=
  entries.filterMap (fun e =>
    match e with
    | MenuEntry.item ⟨_, MenuAction.reveal _, enabled⟩ => some enabled
    | _ => none)

/-- Enablement of the first reveal-in-file-manager menu item. -/
def revealEnabledOf (entries : List MenuEntry) : Option Bool :=
  (revealFlags entries).head?

/-- Enablement flags of the open-with-default-program menu items, in
menu order. -/
def openFlags (entries : List MenuEntry) : List Bool :=
  entries.filterMap (fun e =>
    match e with
    | MenuEntry.item ⟨_, MenuAction.openItem _, enabled⟩ => some enabled
    | _ => none)

/-- Enablement of the first open-with-default-program menu item. -/
def openEnabledOf (entries : List MenuEntry) : Option Bool :=
  (openFlags entries).head?


/-! ## Concrete inputs used by scenario theorems and witnesses -/

/-- The single modified `src/a.sh` file of the spec's end-to-end
scenario. -/
def shFile : WorkingDirectoryFileChange :=
  ⟨"1", "src/a.sh", none, AppFileStatus.Modified, DiffSelectionType.All⟩

/-- A FileSet holding only `shFile`. -/
def shWd : WorkingDirectoryStatus := ⟨[shFile], some true⟩

/-- A file `a/x.txt`. -/
def axFile : WorkingDirectoryFileChange :=
  ⟨"1", "a/x.txt", none, AppFileStatus.Modified, DiffSelectionType.All⟩

/-- A file `b/x.txt`, sharing its base name with `axFile`. -/
def bxFile : WorkingDirectoryFileChange :=
  ⟨"2", "b/x.txt", none, AppFileStatus.Modified, DiffSelectionType.All⟩

/-- A FileSet with two files whose base names coincide. -/
def sameNameWd : WorkingDirectoryStatus := ⟨[axFile, bxFile], some true⟩

/-- A lone `.gitignore` file. -/
def gitignoreFile : WorkingDirectoryFileChange :=
  ⟨"g", ".gitignore", none, AppFileStatus.Modified, DiffSelectionType.All⟩

/-- A FileSet holding only `gitignoreFile`. -/
def gitignoreWd : WorkingDirectoryStatus := ⟨[gitignoreFile], some true⟩

/-- A file whose extension is an upper-case variant of a deny-listed
one. -/
def upperShFile : WorkingDirectoryFileChange :=
  ⟨"u", "tools/run.SH", none, AppFileStatus.Modified, DiffSelectionType.All⟩

/-- A FileSet holding only `upperShFile`. -/
def upperShWd : WorkingDirectoryStatus := ⟨[upperShFile], some true⟩

/-- A one-file FileSet content used by witnesses. -/
def demoFiles : List WorkingDirectoryFileChange :=
  [⟨"f1", "a.txt", none, AppFileStatus.Modified, DiffSelectionType.All⟩]

/-! ## Properties of the seen-filter `dedupFirst` -/

theorem mem_dedupFirstAux (seen l : List String) (a : String) :
    a ∈ dedupFirstAux seen l ↔ a ∈ l ∧ a ∉ seen := by
  induction l generalizing seen with
  | nil => simp [dedupFirstAux]
  | cons x xs ih =>
    rw [dedupFirstAux]
    by_cases hx : x ∈ seen
    · rw [if_pos (by simpa using hx), ih]
      by_cases hax : a = x <;> simp_all [List.mem_cons]
    · rw [if_neg (by simpa using hx), List.mem_cons, ih]
      by_cases hax : a = x <;> simp_all [List.mem_cons]

theorem dedupFirstAux_sublist (seen l : List String) :
    (dedupFirstAux seen l).Sublist l := by
  induction l generalizing seen with
  | nil => simp [dedupFirstAux]
  | cons x xs ih =>
    rw [dedupFirstAux]
    by_cases hx : x ∈ seen
    · rw [if_pos (by simpa using hx)]
      exact (ih seen).cons x
    · rw [if_neg (by simpa using hx)]
      exact (ih (x :: seen)).cons₂ x

theorem dedupFirstAux_nodup (seen l : List String) :
    (dedupFirstAux seen l).Nodup := by
  induction l generalizing seen with
  | nil => simp [dedupFirstAux]
  | cons x xs ih =>
    rw [dedupFirstAux]
    by_cases hx : x ∈ seen
    · rw [if_pos (by simpa using hx)]
      exact ih seen
    · rw [if_neg (by simpa using hx)]
      refine List.nodup_cons.mpr ⟨fun hmem => ?_, ih (x :: seen)⟩
      exact ((mem_dedupFirstAux _ _ _).mp hmem).2 (List.mem_cons_self _ _)

theorem dedupFirstAux_pairwise (seen l : List String) :
    (dedupFirstAux seen l).Pairwise (fun a b => l.indexOf a < l.indexOf b) := by
  induction l generalizing seen with
  | nil => simp [dedupFirstAux]
  | cons x xs ih =>
    rw [dedupFirstAux]
    by_cases hx : x ∈ seen
    · rw [if_pos (by simpa using hx)]
      refine (ih seen).imp_of_mem ?_
      intro a b ha hb h
      have ha' := (mem_dedupFirstAux seen xs a).mp ha
      have hb' := (mem_dedupFirstAux seen xs b).mp hb
      have hax : x ≠ a := fun hc => ha'.2 (hc ▸ hx)
      have hbx : x ≠ b := fun hc => hb'.2 (hc ▸ hx)
      rw [List.indexOf_cons_ne _ hax, List.indexOf_cons_ne _ hbx]
      exact Nat.succ_lt_succ h
    · rw [if_neg (by simpa using hx)]
      refine List.pairwise_cons.mpr ⟨fun b hb => ?_, ?_⟩
      · have hb' := (mem_dedupFirstAux _ xs b).mp hb
        have hbx : x ≠ b := fun hc => hb'.2 (hc ▸ List.mem_cons_self x seen)
        rw [List.indexOf_cons_self, List.indexOf_cons_ne _ hbx]
        exact Nat.succ_pos _
      · refine (ih (x :: seen)).imp_of_mem ?_
        intro a b ha hb h
        have ha' := (mem_dedupFirstAux _ xs a).mp ha
        have hb' := (mem_dedupFirstAux _ xs b).mp hb
        have hax : x ≠ a := fun hc => ha'.2 (hc ▸ List.mem_cons_self x seen)
        have hbx : x ≠ b := fun hc => hb'.2 (hc ▸ List.mem_cons_self x seen)
        rw [List.indexOf_cons_ne _ hax, List.indexOf_cons_ne _ hbx]
        exact Nat.succ_lt_succ h

theorem mem_dedupFirst (l : List String) (a : String) :
    a ∈ dedupFirst l ↔ a ∈ l := by
  rw [dedupFirst, mem_dedupFirstAux]
  simp

/-! ## Specification of `findIndexJS` -/

theorem findIndexJS_spec (p : α → Bool) (l : List α) :
    (findIndexJS p l = -1 ∧ ∀ a ∈ l, p a = false) ∨
    (∃ n : Nat, findIndexJS p l = n ∧
      (∃ a, l[n]? = some a ∧ p a = true) ∧
      ∀ j b, j < n → l[j]? = some b → p b = false) := by
  induction l with
  | nil => exact Or.inl ⟨rfl, by simp⟩
  | cons x xs ih =>
    by_cases hp : p x
    · refine Or.inr ⟨0, by simp [findIndexJS, hp], ⟨x, by simp, hp⟩, ?_⟩
      intro j b hj _
      exact absurd hj (Nat.not_lt_zero j)
    · rcases ih with ⟨h1, h2⟩ | ⟨n, h1, ⟨a, ha, hpa⟩, hfirst⟩
      · refine Or.inl ⟨by simp [findIndexJS, hp, h1], ?_⟩
        intro a ha
        rcases List.mem_cons.mp ha with rfl | h
        · simpa using hp
        · exact h2 a h
      · refine Or.inr ⟨n + 1, ?_, ⟨a, by simpa using ha, hpa⟩, ?_⟩
        · rw [findIndexJS, if_neg (by simpa using hp)]
          simp only [h1]
          rw [if_neg (by omega)]
          push_cast
          ring
        · intro j b hj hb
          cases j with
          | zero =>
            simp only [List.getElem?_cons_zero, Option.some.injEq] at hb
            subst hb
            simpa using hp
          | succ k =>
            exact hfirst k b (Nat.lt_of_succ_lt_succ hj) (by simpa using hb)

/-! ## Computation of the menu extractors on `onItemContextMenu` -/

theorem discardPathsOf_menu (platform : Platform)
    (wd : WorkingDirectoryStatus) (ids : List String) (target : String)
    (status : AppFileStatus) :
    discardPathsOf (onItemContextMenu platform wd ids target status) =
      some ((selectedFilesOf wd.files ids).map (fun f => f.path)) := by
  simp [discardPathsOf, onItemContextMenu, List.filterMap_cons]

theorem ignoreItems_extensionMenuEntries (platform : Platform)
    (extensions : List String) :
    ignoreItems (extensionMenuEntries platform extensions) = [] := by
  rw [ignoreItems, extensionMenuEntries, List.filterMap_filterMap]
  rw [List.filterMap_eq_nil_iff]
  intro a _
  by_cases h : a != ""
  · rw [if_pos h]
    rfl
  · rw [if_neg h]
    rfl

theorem ignoreItems_append (a b : List MenuEntry) :
    ignoreItems (a ++ b) = ignoreItems a ++ ignoreItems b :=
  List.filterMap_append a b _

theorem ignoreItems_menu (platform : Platform)
    (wd : WorkingDirectoryStatus) (ids : List String) (target : String)
    (status : AppFileStatus) :
    ignoreItems (onItemContextMenu platform wd ids target status) =
      (if (selectedFilesOf wd.files ids).length = 1 then
        [⟨"Ignore", MenuAction.ignoreSingle target,
          ((selectedFilesOf wd.files ids).map (fun f => basename f.path)).headD ""
            != GitIgnoreFileName⟩]
      else if 1 < (selectedFilesOf wd.files ids).length then
        [⟨"Ignore all",
          MenuAction.ignoreAll ((selectedFilesOf wd.files ids).map (fun f => f.path)),
          ((selectedFilesOf wd.files ids).map (fun f => basename f.path)).headD ""
            != GitIgnoreFileName⟩]
      else []) := by
  simp only [onItemContextMenu, ignoreItems_append, ignoreItems_extensionMenuEntries]
  simp only [ignoreItems, List.filterMap_cons, List.filterMap_nil]
  rw [ignoreMenuEntries]
  simp only [List.length_map]
  split_ifs <;> simp [List.filterMap_cons]

theorem ignorePatternsOf_extensionMenuEntries (platform : Platform)
    (extensions : List String) :
    ignorePatternsOf (extensionMenuEntries platform extensions) =
      (extensions.filter (fun e => e != "")).map (fun e => "*" ++ e) := by
  induction extensions with
  | nil => rfl
  | cons x xs ih =>
    by_cases h : x = "" <;>
      simpa [extensionMenuEntries, ignorePatternsOf, List.filterMap_cons,
        List.filter_cons, h] using ih

theorem ignorePatternsOf_menu (platform : Platform)
    (wd : WorkingDirectoryStatus) (ids : List String) (target : String)
    (status : AppFileStatus) :
    ignorePatternsOf (onItemContextMenu platform wd ids target status) =
      ((dedupFirst ((selectedFilesOf wd.files ids).map (fun f => extname f.path))).filter
        (fun e => e != "")).map (fun e => "*" ++ e) := by
  simp only [onItemContextMenu]
  rw [show ∀ a b : List MenuEntry, ignorePatternsOf (a ++ b) =
      ignorePatternsOf a ++ ignorePatternsOf b from
    fun a b => List.filterMap_append a b _]
  rw [show ∀ a b : List MenuEntry, ignorePatternsOf (a ++ b) =
      ignorePatternsOf a ++ ignorePatternsOf b from
    fun a b => List.filterMap_append a b _]
  rw [show ∀ a b : List MenuEntry, ignorePatternsOf (a ++ b) =
      ignorePatternsOf a ++ ignorePatternsOf b from
    fun a b => List.filterMap_append a b _]
  rw [ignorePatternsOf_extensionMenuEntries]
  rw [show ignorePatternsOf [MenuEntry.item ⟨discardLabel platform,
      MenuAction.discard ((selectedFilesOf wd.files ids).map (fun f => f.path)), true⟩,
      MenuEntry.separator] = [] from rfl]
  rw [show ignorePatternsOf [MenuEntry.separator,
      MenuEntry.item ⟨revealInFileManagerLabel platform,
        MenuAction.reveal target, status != AppFileStatus.Deleted⟩,
      MenuEntry.item ⟨openLabel platform, MenuAction.openItem target,
        isSafeExtension platform
          (dedupFirst ((selectedFilesOf wd.files ids).map (fun f => extname f.path)))
          && status != AppFileStatus.Deleted⟩] = [] from rfl]
  rw [show ignorePatternsOf (ignoreMenuEntries
      ((selectedFilesOf wd.files ids).map (fun f => basename f.path)) target
      ((selectedFilesOf wd.files ids).map (fun f => f.path))) = [] from by
    rw [ignoreMenuEntries]
    split_ifs <;> rfl]
  simp

theorem revealFlags_append (a b : List MenuEntry) :
    revealFlags (a ++ b) = revealFlags a ++ revealFlags b :=
  List.filterMap_append a b _

theorem openFlags_append (a b : List MenuEntry) :
    openFlags (a ++ b) = openFlags a ++ openFlags b :=
  List.filterMap_append a b _

theorem revealFlags_ignoreMenuEntries (fileName : List String)
    (target : String) (paths : List String) :
    revealFlags (ignoreMenuEntries fileName target paths) = [] := by
  rw [ignoreMenuEntries]
  split_ifs <;> rfl

theorem openFlags_ignoreMenuEntries (fileName : List String)
    (target : String) (paths : List String) :
    openFlags (ignoreMenuEntries fileName target paths) = [] := by
  rw [ignoreMenuEntries]
  split_ifs <;> rfl

theorem revealFlags_extensionMenuEntries (platform : Platform)
    (extensions : List String) :
    revealFlags (extensionMenuEntries platform extensions) = [] := by
  rw [revealFlags, extensionMenuEntries, List.filterMap_filterMap,
    List.filterMap_eq_nil_iff]
  intro a _
  by_cases h : a != ""
  · rw [if_pos h]
    rfl
  · rw [if_neg h]
    rfl

theorem openFlags_extensionMenuEntries (platform : Platform)
    (extensions : List String) :
    openFlags (extensionMenuEntries platform extensions) = [] := by
  rw [openFlags, extensionMenuEntries, List.filterMap_filterMap,
    List.filterMap_eq_nil_iff]
  intro a _
  by_cases h : a != ""
  · rw [if_pos h]
    rfl
  · rw [if_neg h]
    rfl

theorem revealEnabledOf_menu (platform : Platform)
    (wd : WorkingDirectoryStatus) (ids : List String) (target : String)
    (status : AppFileStatus) :
    revealEnabledOf (onItemContextMenu platform wd ids target status) =
      some (status != AppFileStatus.Deleted) := by
  rw [revealEnabledOf]
  simp only [onItemContextMenu, revealFlags_append,
    revealFlags_ignoreMenuEntries, revealFlags_extensionMenuEntries]
  rfl

theorem openEnabledOf_menu (platform : Platform)
    (wd : WorkingDirectoryStatus) (ids : List String) (target : String)
    (status : AppFileStatus) :
    openEnabledOf (onItemContextMenu platform wd ids target status) =
      some (isSafeExtension platform
          (dedupFirst ((selectedFilesOf wd.files ids).map (fun f => extname f.path)))
        && status != AppFileStatus.Deleted) := by
  rw [openEnabledOf]
  simp only [onItemContextMenu, openFlags_append,
    openFlags_ignoreMenuEntries, openFlags_extensionMenuEntries]
  rfl

/-! ## Resolution of the multi-selection -/

theorem selectedFilesOf_mem (fileList : List WorkingDirectoryFileChange)
    (ids : List String) (f : WorkingDirectoryFileChange)
    (hf : f ∈ selectedFilesOf fileList ids) :
    f ∈ fileList ∧ f.id ∈ ids := by
  rw [selectedFilesOf, List.mem_filterMap] at hf
  obtain ⟨fid, hfid, hfind⟩ := hf
  have hmem := List.mem_of_find?_eq_some hfind
  have hp := List.find?_some hfind
  have : f.id = fid := by simpa using hp
  exact ⟨hmem, this ▸ hfid⟩

theorem selectedFilesOf_complete (fileList : List WorkingDirectoryFileChange)
    (ids : List String) (fid : String) (hfid : fid ∈ ids)
    (hex : ∃ f ∈ fileList, f.id = fid) :
    ∃ f ∈ selectedFilesOf fileList ids, f.id = fid := by
  obtain ⟨f0, hf0, hid0⟩ := hex
  have hsome : (fileList.find? (fun f => f.id == fid)).isSome := by
    rw [List.find?_isSome]
    exact ⟨f0, hf0, by simp [hid0]⟩
  obtain ⟨g, hg⟩ := Option.isSome_iff_exists.mp hsome
  refine ⟨g, ?_, ?_⟩
  · rw [selectedFilesOf, List.mem_filterMap]
    exact ⟨fid, hfid, hg⟩
  · simpa using List.find?_some hg

/-! ## Claim theorems -/

/-- Claim C1, counterexample: mapping the selection `["a"]` over an
empty FileSet yields the sentinel index `-1`, so the output is NOT
shorter than the input by the number of absent identifiers (the claim
would demand an empty output here). -/
theorem C1_counterexample :
    selectedRows [] ["a"] = [-1] ∧
    (selectedRows [] ["a"]).length ≠ (["a"] : List String).length - 1 := by
  constructor
  · rfl
  · decide

/-- Claim C1 as amended: mapping selected identifiers to row indices
yields exactly one entry per input identifier, in the input order; an
identifier present in the FileSet contributes the index of its first
matching row, while an identifier absent from the FileSet contributes
the sentinel `-1` (it is inserted, not suppressed). -/
theorem C1_amended_general (files : List WorkingDirectoryFileChange)
    (ids : List String) :
    (selectedRows files ids).length = ids.length ∧
    ∀ (k : Nat) (fid : String), ids[k]? = some fid →
      ((∀ f ∈ files, f.id ≠ fid) ∧ (selectedRows files ids)[k]? = some (-1)) ∨
      (∃ n : Nat, (selectedRows files ids)[k]? = some (n : Int) ∧
        (∃ f, files[n]? = some f ∧ f.id = fid) ∧
        ∀ (j : Nat) (g : WorkingDirectoryFileChange), j < n → files[j]? = some g → g.id ≠ fid) := by
  refine ⟨by simp [selectedRows], ?_⟩
  intro k fid hk
  have hmap : (selectedRows files ids)[k]? =
      some (findIndexJS (fun f => f.id == fid) files) := by
    simp [selectedRows, List.getElem?_map, hk]
  rcases findIndexJS_spec (fun f => f.id == fid) files with
    ⟨h1, h2⟩ | ⟨n, h1, ⟨a, ha, hpa⟩, hfirst⟩
  · refine Or.inl ⟨fun f hf => ?_, by rw [hmap, h1]⟩
    simpa using h2 f hf
  · refine Or.inr ⟨n, by rw [hmap, h1], ⟨a, ha, by simpa using hpa⟩, ?_⟩
    intro j g hj hg
    simpa using hfirst j g hj hg

/-- Witness for the amended C1 at a selection whose identifier is absent
from the FileSet. -/
theorem C1_amended_witness :
    ((∀ f ∈ demoFiles, f.id ≠ "zz") ∧
      (selectedRows demoFiles ["zz"])[0]? = some (-1)) ∨
    (∃ n : Nat, (selectedRows demoFiles ["zz"])[0]? = some (n : Int) ∧
      (∃ f, demoFiles[n]? = some f ∧ f.id = "zz") ∧
      ∀ (j : Nat) (g : WorkingDirectoryFileChange), j < n → demoFiles[j]? = some g → g.id ≠ "zz") :=
  (C1_amended_general demoFiles ["zz"]).2 0 "zz" rfl

/-- Claim C2, counterexample: in the spec's end-to-end scenario (FileSet
`[src/a.sh]`, empty multi-selection, right-click on `src/a.sh`, win32
host) the open-with-default-program action is ENABLED although the
target's extension is deny-listed, because the deny-list check runs over
the extensions of the (empty) multi-selection, not over the right-clicked
file. -/
theorem C2_counterexample :
    openEnabledOf (onItemContextMenu Platform.win32 shWd []
      "src/a.sh" AppFileStatus.Modified) = some true ∧
    toLowerCase (extname "src/a.sh") ∈ RestrictedFileExtensions := by
  constructor
  · rfl
  · decide

/-- Claim C2 as amended: the open-with-default-program action is enabled
iff the right-clicked file's status is not deleted and, on win32 only,
every extension of the resolved multi-selection (deduplicated, lowercased)
is off the deny-list; the right-clicked file's own extension plays no
role, and on the other platforms the extension check is skipped. -/
theorem C2_amended_general (platform : Platform)
    (wd : WorkingDirectoryStatus) (ids : List String) (target : String)
    (status : AppFileStatus) :
    openEnabledOf (onItemContextMenu platform wd ids target status) =
      some (isSafeExtension platform
          (dedupFirst ((selectedFilesOf wd.files ids).map (fun f => extname f.path)))
        && status != AppFileStatus.Deleted) ∧
    (platform ≠ Platform.win32 →
      openEnabledOf (onItemContextMenu platform wd ids target status) =
        some (status != AppFileStatus.Deleted)) := by
  refine ⟨openEnabledOf_menu platform wd ids target status, fun h => ?_⟩
  rw [openEnabledOf_menu]
  simp [isSafeExtension, h]

/-- Witness for the amended C2 on a non-win32 platform. -/
theorem C2_amended_witness :
    openEnabledOf (onItemContextMenu Platform.linux shWd []
      "src/a.sh" AppFileStatus.Modified) =
      some (AppFileStatus.Modified != AppFileStatus.Deleted) :=
  (C2_amended_general Platform.linux shWd [] "src/a.sh"
    AppFileStatus.Modified).2 (by decide)

/-- Claim C3, counterexample: with an empty multi-selection the
effective target set is empty, not the right-clicked file: the discard
action carries an empty path list and no ignore action is offered. -/
theorem C3_counterexample :
    discardPathsOf (onItemContextMenu Platform.linux shWd []
      "src/a.sh" AppFileStatus.Modified) = some [] ∧
    ignoreItems (onItemContextMenu Platform.linux shWd []
      "src/a.sh" AppFileStatus.Modified) = [] := by
  constructor
  · rfl
  · rfl

/-- Claim C3 as amended: the effective target set is always the selected
identifiers resolved to file records with vanished identifiers dropped
(complete on the surviving ones); when the multi-selection is empty the
effective set is empty — the discard action receives an empty path list
and no ignore action appears — and the right-clicked file never enters
the effective set. -/
theorem C3_amended_general (platform : Platform)
    (wd : WorkingDirectoryStatus) (ids : List String) (target : String)
    (status : AppFileStatus) :
    discardPathsOf (onItemContextMenu platform wd ids target status) =
      some ((selectedFilesOf wd.files ids).map (fun f => f.path)) ∧
    (∀ f ∈ selectedFilesOf wd.files ids, f ∈ wd.files ∧ f.id ∈ ids) ∧
    (∀ fid ∈ ids, (∃ f ∈ wd.files, f.id = fid) →
      ∃ f ∈ selectedFilesOf wd.files ids, f.id = fid) ∧
    (selectedFilesOf wd.files ids = [] →
      ignoreItems (onItemContextMenu platform wd ids target status) = []) := by
  refine ⟨discardPathsOf_menu platform wd ids target status,
    fun f hf => selectedFilesOf_mem wd.files ids f hf,
    fun fid hfid hex => selectedFilesOf_complete wd.files ids fid hfid hex,
    fun h => ?_⟩
  rw [ignoreItems_menu, h]
  simp

/-- Witness for the amended C3 at an empty multi-selection. -/
theorem C3_amended_witness :
    ignoreItems (onItemContextMenu Platform.darwin shWd []
      "src/a.sh" AppFileStatus.Modified) = [] :=
  (C3_amended_general Platform.darwin shWd [] "src/a.sh"
    AppFileStatus.Modified).2.2.2 rfl

/-- Claim C4, counterexample: two selected files `a/x.txt` and `b/x.txt`
share their single distinct base name, yet the menu offers the batch
`Ignore all` action, because the code branches on the number of selected
files, not on the number of distinct base names. -/
theorem C4_counterexample :
    dedupFirst ((selectedFilesOf sameNameWd.files ["1", "2"]).map
      (fun f => basename f.path)) = ["x.txt"] ∧
    ignoreActionOf (onItemContextMenu Platform.linux sameNameWd ["1", "2"]
      "a/x.txt" AppFileStatus.Modified) =
      some (MenuAction.ignoreAll ["a/x.txt", "b/x.txt"]) := by
  constructor
  · rfl
  · rfl

/-- Claim C4 as amended: for a non-empty effective target set the menu
contains exactly one of the two ignore actions, chosen by the SIZE of
the effective set (not by distinct base names): exactly one file
selected gives the single `Ignore` action bound to the right-clicked
path, two or more give the `Ignore all` action bound to the entire
paths list; an empty effective set gives neither. -/
theorem C4_amended_general (platform : Platform)
    (wd : WorkingDirectoryStatus) (ids : List String) (target : String)
    (status : AppFileStatus) :
    ((selectedFilesOf wd.files ids).length = 1 →
      ∃ it : MenuItem,
        ignoreItems (onItemContextMenu platform wd ids target status) = [it] ∧
        it.action = MenuAction.ignoreSingle target) ∧
    (1 < (selectedFilesOf wd.files ids).length →
      ∃ it : MenuItem,
        ignoreItems (onItemContextMenu platform wd ids target status) = [it] ∧
        it.action = MenuAction.ignoreAll
          ((selectedFilesOf wd.files ids).map (fun f => f.path))) ∧
    ((selectedFilesOf wd.files ids).length = 0 →
      ignoreItems (onItemContextMenu platform wd ids target status) = []) := by
  refine ⟨fun h1 => ?_, fun h2 => ?_, fun h0 => ?_⟩
  · rw [ignoreItems_menu, if_pos h1]
    exact ⟨_, rfl, rfl⟩
  · rw [ignoreItems_menu, if_neg (by omega), if_pos h2]
    exact ⟨_, rfl, rfl⟩
  · rw [ignoreItems_menu, if_neg (by omega), if_neg (by omega)]

/-- Witness for the amended C4 at a two-file selection. -/
theorem C4_amended_witness :
    ∃ it : MenuItem,
      ignoreItems (onItemContextMenu Platform.linux sameNameWd ["1", "2"]
        "a/x.txt" AppFileStatus.Modified) = [it] ∧
      it.action = MenuAction.ignoreAll
        ((selectedFilesOf sameNameWd.files ["1", "2"]).map (fun f => f.path)) :=
  (C4_amended_general Platform.linux sameNameWd ["1", "2"] "a/x.txt"
    AppFileStatus.Modified).2.1 (by decide)

/-- Claim C5, confirmed: whichever of the two ignore actions is present,
its enablement is exactly "the first base file name of the effective set
differs from the reserved name `.gitignore`" — so a singleton
`.gitignore` set yields a disabled action, and a reserved name anywhere
past the first position of a multi-selection does not disable the batch
action. -/
theorem C5_ignore_enabled (platform : Platform)
    (wd : WorkingDirectoryStatus) (ids : List String) (target : String)
    (status : AppFileStatus)
    (h : selectedFilesOf wd.files ids ≠ []) :
    ignoreEnabledOf (onItemContextMenu platform wd ids target status) =
      some (((selectedFilesOf wd.files ids).map (fun f => basename f.path)).headD ""
        != GitIgnoreFileName) := by
  have hlen : 0 < (selectedFilesOf wd.files ids).length := List.length_pos.mpr h
  rw [ignoreEnabledOf, ignoreItems_menu]
  split_ifs with h1 h2
  · rfl
  · rfl
  · omega

/-- Witness for C5 on the singleton `.gitignore` effective set: the
ignore action is disabled. -/
theorem C5_witness :
    ignoreEnabledOf (onItemContextMenu Platform.linux gitignoreWd ["g"]
      ".gitignore" AppFileStatus.Modified) = some false := by
  rw [C5_ignore_enabled Platform.linux gitignoreWd ["g"] ".gitignore"
    AppFileStatus.Modified (by decide)]
  rfl

/-- Claim C6, confirmed: the per-extension ignore actions are the
deduplicated (first-occurrence order, duplicate-free, order-preserving
sublist with the same members) extensions of the effective set, with
empty extensions contributing nothing, each action submitting the single
wildcard pattern `*` ++ ext; on the spec's example paths the extension
list is `[.txt, .md]`. -/
theorem C6_extension_actions (platform : Platform)
    (wd : WorkingDirectoryStatus) (ids : List String) (target : String)
    (status : AppFileStatus) :
    ignorePatternsOf (onItemContextMenu platform wd ids target status) =
      ((dedupFirst ((selectedFilesOf wd.files ids).map (fun f => extname f.path))).filter
        (fun e => e != "")).map (fun e => "*" ++ e) ∧
    (dedupFirst ((selectedFilesOf wd.files ids).map (fun f => extname f.path))).Nodup ∧
    (dedupFirst ((selectedFilesOf wd.files ids).map (fun f => extname f.path))).Sublist
      ((selectedFilesOf wd.files ids).map (fun f => extname f.path)) ∧
    (dedupFirst ((selectedFilesOf wd.files ids).map (fun f => extname f.path))).Pairwise
      (fun a b =>
        ((selectedFilesOf wd.files ids).map (fun f => extname f.path)).indexOf a <
        ((selectedFilesOf wd.files ids).map (fun f => extname f.path)).indexOf b) ∧
    (∀ e, e ∈ dedupFirst ((selectedFilesOf wd.files ids).map (fun f => extname f.path)) ↔
      e ∈ (selectedFilesOf wd.files ids).map (fun f => extname f.path)) ∧
    dedupFirst (["a.txt", "b.md", "c.txt", "d.md"].map extname) = [".txt", ".md"] :=
  ⟨ignorePatternsOf_menu platform wd ids target status,
   dedupFirstAux_nodup [] _,
   dedupFirstAux_sublist [] _,
   dedupFirstAux_pairwise [] _,
   fun e => mem_dedupFirst _ e,
   by rfl⟩

/-- Claim C7, confirmed: executing discard re-resolves each path against
the FileSet: a single unresolved path is a silent no-op; a resolved
single path forwards its record; a batch whose paths all vanished makes
no collaborator call; a batch call forwards only records that exist in
the FileSet under one of the requested paths, and every requested path
that still resolves is represented in the forwarded batch. -/
theorem C7_discard_dispatch (wd : WorkingDirectoryStatus) :
    (∀ path : String, (∀ f ∈ wd.files, f.path ≠ path) →
      onDiscardChanges wd (PathArg.single path) = DiscardCall.noop) ∧
    (∀ (path : String) (file : WorkingDirectoryFileChange),
      wd.files.find? (fun f => f.path == path) = some file →
      onDiscardChanges wd (PathArg.single path) = DiscardCall.discardChanges file) ∧
    (∀ paths : List String, (∀ p ∈ paths, ∀ f ∈ wd.files, f.path ≠ p) →
      onDiscardChanges wd (PathArg.array paths) = DiscardCall.noop) ∧
    (∀ (paths : List String) (files : List WorkingDirectoryFileChange),
      onDiscardChanges wd (PathArg.array paths) = DiscardCall.discardAllChanges files →
      files ≠ [] ∧ ∀ f ∈ files, f ∈ wd.files ∧ f.path ∈ paths) ∧
    (∀ (paths : List String) (p : String), p ∈ paths →
      (∃ f ∈ wd.files, f.path = p) →
      ∃ files, onDiscardChanges wd (PathArg.array paths) =
          DiscardCall.discardAllChanges files ∧
        ∃ f ∈ files, f.path = p) := by
  refine ⟨?_, ?_, ?_, ?_, ?_⟩
  · intro path h
    have hnone : wd.files.find? (fun f => f.path == path) = none :=
      List.find?_eq_none.mpr (fun f hf => by simpa using h f hf)
    simp [onDiscardChanges, hnone]
  · intro path file hfind
    simp [onDiscardChanges, hfind]
  · intro paths h
    have hnil : paths.filterMap
        (fun path => wd.files.find? (fun f => f.path == path)) = [] := by
      rw [List.filterMap_eq_nil_iff]
      intro p hp
      exact List.find?_eq_none.mpr (fun f hf => by simpa using h p hp f hf)
    simp [onDiscardChanges, hnil]
  · intro paths files hcall
    rw [onDiscardChanges] at hcall
    by_cases hlen : (paths.filterMap
        (fun path => wd.files.find? (fun f => f.path == path))).length ≠ 0
    · rw [if_pos hlen] at hcall
      obtain rfl : paths.filterMap
          (fun path => wd.files.find? (fun f => f.path == path)) = files := by
        injection hcall
      refine ⟨fun hnil => hlen (by rw [hnil]; rfl), fun f hf => ?_⟩
      rw [List.mem_filterMap] at hf
      obtain ⟨p, hp, hfind⟩ := hf
      have : f.path = p := by simpa using List.find?_some hfind
      exact ⟨List.mem_of_find?_eq_some hfind, this ▸ hp⟩
    · rw [if_neg hlen] at hcall
      cases hcall
  · intro paths p hp hex
    obtain ⟨f0, hf0, hpath0⟩ := hex
    have hsome : (wd.files.find? (fun f => f.path == p)).isSome := by
      rw [List.find?_isSome]
      exact ⟨f0, hf0, by simp [hpath0]⟩
    obtain ⟨g, hg⟩ := Option.isSome_iff_exists.mp hsome
    have hgmem : g ∈ paths.filterMap
        (fun path => wd.files.find? (fun f => f.path == path)) :=
      List.mem_filterMap.mpr ⟨p, hp, hg⟩
    have hlen : (paths.filterMap
        (fun path => wd.files.find? (fun f => f.path == path))).length ≠ 0 := by
      intro h0
      rw [List.length_eq_zero] at h0
      rw [h0] at hgmem
      cases hgmem
    refine ⟨_, ?_, g, hgmem, by simpa using List.find?_some hg⟩
    rw [onDiscardChanges, if_pos hlen]

/-- Witness for C7: discarding a path absent from the FileSet makes no
collaborator call. -/
theorem C7_witness :
    onDiscardChanges shWd (PathArg.single "absent.txt") = DiscardCall.noop :=
  (C7_discard_dispatch shWd).1 "absent.txt" (by decide)

/-- Claim C8, confirmed: on every platform the reveal-in-file-manager
action is enabled exactly when the right-clicked file's status is not
deleted. -/
theorem C8_reveal_enabled (platform : Platform)
    (wd : WorkingDirectoryStatus) (ids : List String) (target : String)
    (status : AppFileStatus) :
    revealEnabledOf (onItemContextMenu platform wd ids target status) =
      some (status != AppFileStatus.Deleted) :=
  revealEnabledOf_menu platform wd ids target status

/-- Claim C9, confirmed against the spec-modelled aggregate flag: the
tri-state checkbox is a pure function of the FileSet's aggregate flag —
a non-empty FileSet with every file fully included renders On, with
every file fully excluded renders Off, any mix renders Mixed, and an
empty FileSet renders the None-equivalent Off. -/
theorem C9_aggregate_checkbox (files : List WorkingDirectoryFileChange) :
    (files ≠ [] → (∀ f ∈ files, f.selectionType = DiffSelectionType.All) →
      includeAllValue (aggregateIncludeAll files) = CheckboxValue.On) ∧
    (files ≠ [] →
      (∀ f ∈ files, f.selectionType = DiffSelectionType.NoneSelection) →
      includeAllValue (aggregateIncludeAll files) = CheckboxValue.Off) ∧
    ((¬ ∀ f ∈ files, f.selectionType = DiffSelectionType.All) →
      (¬ ∀ f ∈ files, f.selectionType = DiffSelectionType.NoneSelection) →
      includeAllValue (aggregateIncludeAll files) = CheckboxValue.Mixed) ∧
    (files = [] →
      includeAllValue (aggregateIncludeAll files) = CheckboxValue.Off) := by
  refine ⟨fun hne hall => ?_, fun hne hnone => ?_, fun hnall hnnone => ?_,
    fun hnil => ?_⟩
  · rw [aggregateIncludeAll,
      if_neg (by simpa [List.isEmpty_iff] using hne),
      if_pos (List.all_eq_true.mpr (fun f hf => by simp [hall f hf]))]
    rfl
  · obtain ⟨f0, hf0⟩ := List.exists_mem_of_ne_nil files hne
    rw [aggregateIncludeAll,
      if_neg (by simpa [List.isEmpty_iff] using hne),
      if_neg (by
        rw [List.all_eq_true]
        intro hcon
        have := hcon f0 hf0
        simp [hnone f0 hf0] at this),
      if_pos (List.all_eq_true.mpr (fun f hf => by simp [hnone f hf]))]
    rfl
  · have hne : files ≠ [] := by
      intro hnil
      exact hnall (by simp [hnil])
    rw [aggregateIncludeAll,
      if_neg (by simpa [List.isEmpty_iff] using hne),
      if_neg (by
        rw [List.all_eq_true]
        intro hcon
        exact hnall (fun f hf => by simpa using hcon f hf)),
      if_neg (by
        rw [List.all_eq_true]
        intro hcon
        exact hnnone (fun f hf => by simpa using hcon f hf))]
    rfl
  · rw [hnil]
    rfl

/-- Witness for C9 on a non-empty fully included FileSet. -/
theorem C9_witness :
    includeAllValue (aggregateIncludeAll demoFiles) = CheckboxValue.On :=
  (C9_aggregate_checkbox demoFiles).1 (by decide) (by decide)

/-- Claim C10, confirmed: the deny-list is exactly
`[.cmd, .exe, .bat, .sh]` and the win32 check lowercases each selected
extension before comparing, so a selected file whose extension is an
upper- or mixed-case variant of a deny-listed one disables the
open-with-default-program action. -/
theorem C10_denylist_lowercase :
    RestrictedFileExtensions = [".cmd", ".exe", ".bat", ".sh"] ∧
    (∀ (wd : WorkingDirectoryStatus) (ids : List String) (target : String)
      (status : AppFileStatus) (f : WorkingDirectoryFileChange),
      f ∈ selectedFilesOf wd.files ids →
      toLowerCase (extname f.path) ∈ RestrictedFileExtensions →
      openEnabledOf (onItemContextMenu Platform.win32 wd ids target status) =
        some false) ∧
    toLowerCase ".SH" = ".sh" ∧ toLowerCase ".Exe" = ".exe" := by
  refine ⟨rfl, ?_, rfl, rfl⟩
  intro wd ids target status f hf hmem
  rw [openEnabledOf_menu]
  have hx : extname f.path ∈
      dedupFirst ((selectedFilesOf wd.files ids).map (fun g => extname g.path)) :=
    (mem_dedupFirst _ _).mpr (List.mem_map_of_mem _ hf)
  have hsafe : isSafeExtension Platform.win32
      (dedupFirst ((selectedFilesOf wd.files ids).map (fun g => extname g.path))) =
      false := by
    rw [isSafeExtension, if_pos rfl, List.all_eq_false]
    exact ⟨_, hx, by simp [hmem]⟩
  rw [hsafe]
  rfl

/-- Witness for C10 on a selected `tools/run.SH` file on win32. -/
theorem C10_witness :
    openEnabledOf (onItemContextMenu Platform.win32 upperShWd ["u"]
      "tools/run.SH" AppFileStatus.Modified) = some false :=
  C10_denylist_lowercase.2.1 upperShWd ["u"] "tools/run.SH"
    AppFileStatus.Modified upperShFile (by decide) (by decide)
